import Mathlib

/-!
# Verification of the linear-regression numerical core

This file embeds the two numerical routines of the repository
(`gradient_descent` from Notebook 3 and `linear_regression_closed_form`
from Notebook 2) into Lean and proves or refutes the specification's
claims about them.

Real numbers (numpy float64 values) are modelled as exact rationals `ℚ`.
1-D numpy arrays are `List ℚ`; 2-D arrays in the gradient-descent routine
are `List (List ℚ)` (row major), so that shape mismatches — which the
Python code never checks for — can be expressed.  A numpy operation that
raises (`ValueError` on a shape mismatch, `LinAlgError` on a singular
matrix) is modelled as returning `none`; an exception aborts the whole
call, so `none` propagates.

numpy's 1-D broadcasting is modelled faithfully: `a - b` on 1-D arrays
succeeds when the lengths agree or when one of them is 1 (the length-1
side is stretched); otherwise it raises.  An in-place `a -= b` can only
stretch `b`, never `a`.
-/

namespace MLCore

open Matrix

/-- Dot product of two lists (`zipWith` never overruns because every
caller checks lengths first, mirroring numpy's shape check). -/
def dot (a b : List ℚ) : ℚ :=
  (List.zipWith (· * ·) a b).sum

/-- Product `A @ v` for a row-major matrix and a vector: numpy raises unless the
row length equals the vector length. -/
def matVec (A : List (List ℚ)) (v : List ℚ) : Option (List ℚ) :=
  if A.all (fun r => r.length = v.length) then
    some (A.map (fun r => dot r v))
  else none

/-- Product `A.T @ e`: numpy raises unless `e` has one entry per row of `A`.
Entry `j` of the result is the dot product of column `j` of `A` with `e`. -/
def matTvec (A : List (List ℚ)) (e : List ℚ) : Option (List ℚ) :=
  if e.length = A.length then
    some ((List.range A.headI.length).map
      (fun j => (List.zipWith (fun r x => r.getD j 0 * x) A e).sum))
  else none

/-- Subtraction `a - b` on 1-D numpy arrays, with broadcasting: equal lengths
subtract pointwise; a length-1 operand is stretched; anything else
raises. -/
def subVec (a b : List ℚ) : Option (List ℚ) :=
  if a.length = b.length then some (List.zipWith (· - ·) a b)
  else if b.length = 1 then some (a.map (fun x => x - b.headI))
  else if a.length = 1 then some (b.map (fun x => a.headI - x))
  else none

/-- In-place `a -= b`: the result must keep the shape of `a`, so only
`b` may be stretched. -/
def subVecI (a b : List ℚ) : Option (List ℚ) :=
  if a.length = b.length then some (List.zipWith (· - ·) a b)
  else if b.length = 1 then some (a.map (fun x => x - b.headI))
  else none

/-- One iteration of the loop body of `gradient_descent`
(source: Notebook 3, `for epoch in range(epochs)`):
`y_pred = X_b @ beta`; `error = y - y_pred`;
`gradient = -X_b.T @ error / n`; `beta -= lr * gradient`;
`loss = 0.5 * np.mean(error ** 2)`.  Returns the updated `beta`
together with the loss appended to the history, i.e. the pair
`(beta.copy(), loss)` — note the loss is computed from the residual of
the pre-update `beta` while the recorded vector is the post-update one. -/
def gdStep (X_b : List (List ℚ)) (y : List ℚ) (lr : ℚ) (beta : List ℚ) :
    Option (List ℚ × ℚ) :=
  (matVec X_b beta).bind fun y_pred =>
    (subVec y y_pred).bind fun error =>
      (matTvec X_b error).bind fun ge =>
        let gradient := ge.map (fun v => -v / (X_b.length : ℚ))
        (subVecI beta (gradient.map (fun v => lr * v))).map fun beta' =>
          (beta', (error.map (fun v => v ^ 2)).sum / (error.length : ℚ) / 2)

/-- The `for epoch in range(epochs)` loop: runs `k` iterations, threading
`beta` and appending one `(beta copy, loss)` pair per iteration to the
history accumulator.  A raised exception (`none` from the body) aborts
the call. -/
def gdLoop (X_b : List (List ℚ)) (y : List ℚ) (lr : ℚ) :
    ℕ → List ℚ → List (List ℚ × ℚ) → Option (List ℚ × List (List ℚ × ℚ))
  | 0, beta, hist => some (beta, hist)
  | k + 1, beta, hist =>
    (gdStep X_b y lr beta).bind fun bL =>
      gdLoop X_b y lr k bL.1 (hist ++ [bL])

/-- The bias-augmented rows `X_b = np.c_[np.ones((n, 1)), X]`: a leading
1 prepended to every row. -/
def augRows (X : List (List ℚ)) : List (List ℚ) :=
  X.map (fun r => 1 :: r)

/-- The function `gradient_descent(X, y, lr, epochs)` from Notebook 3:
`X_b = np.c_[np.ones((n, 1)), X]` prepends the bias column;
`beta = np.zeros((2,))` — the initial coefficient vector is hard-coded
to length 2, regardless of how many feature columns `X` has;
then the loop above.  `range(epochs)` is empty for `epochs ≤ 0`, which
`Int.toNat` captures. -/
def gradient_descent (X : List (List ℚ)) (y : List ℚ) (lr : ℚ) (epochs : ℤ) :
    Option (List ℚ × List (List ℚ × ℚ)) :=
  gdLoop (augRows X) y lr epochs.toNat (List.replicate 2 0) []

/-!
## Reference forms of the loop body

On well-shaped input (rectangular `X_b`, matching lengths) the loop body
never raises, and it computes the following total functions.  These are
the spec's per-iteration formulas, stated over the same primitives; the
`gdStep_valid` lemma below proves the embedded loop body agrees with
them. -/

/-- Predicted values `ŷ = X_b @ β`. -/
def predict (X_b : List (List ℚ)) (beta : List ℚ) : List ℚ :=
  X_b.map (fun r => dot r beta)

/-- Residual `e = y − ŷ`. -/
def residual (X_b : List (List ℚ)) (y beta : List ℚ) : List ℚ :=
  List.zipWith (· - ·) y (predict X_b beta)

/-- Loss `L(β) = 0.5 · mean(e²)`. -/
def lossOf (X_b : List (List ℚ)) (y beta : List ℚ) : ℚ :=
  ((residual X_b y beta).map (fun v => v ^ 2)).sum
    / ((residual X_b y beta).length : ℚ) / 2

/-- Gradient `g = −X_bᵗ e / n` where `n` is the row count. -/
def gradOf (X_b : List (List ℚ)) (y beta : List ℚ) : List ℚ :=
  (List.range X_b.headI.length).map
    (fun j =>
      -(List.zipWith (fun r x => r.getD j 0 * x) X_b (residual X_b y beta)).sum
        / (X_b.length : ℚ))

/-- Update `β ← β − lr·g`. -/
def stepBeta (X_b : List (List ℚ)) (y : List ℚ) (lr : ℚ) (beta : List ℚ) :
    List ℚ :=
  List.zipWith (· - ·) beta ((gradOf X_b y beta).map (fun v => lr * v))

/-!
## The closed-form solver (Notebook 2)

`linear_regression_closed_form(X, y)` builds `X_b = np.c_[ones, X]` and
returns `np.linalg.inv(X_b.T @ X_b) @ X_b.T @ y`.  numpy arrays here are
well shaped by typing, so the embedding uses Mathlib matrices indexed by
`Fin`; `np.linalg.inv` raising `LinAlgError` on a singular matrix is
modelled (in exact arithmetic) as `none` exactly when the determinant
vanishes. -/

/-- The Augmented Design Matrix: a constant-1 column prepended to `X`
(`np.c_[np.ones((X.shape[0], 1)), X]`). -/
def augment {n c : ℕ} (X : Matrix (Fin n) (Fin c) ℚ) :
    Matrix (Fin n) (Fin (c + 1)) ℚ :=
  Matrix.of fun i => Matrix.vecCons 1 (X i)

/-- Executable matrix inverse over `ℚ` (the adjugate formula); agrees
with Mathlib's noncomputable `G⁻¹` by `matInv_eq_inv` below. -/
def matInv {m : ℕ} (G : Matrix (Fin m) (Fin m) ℚ) :
    Matrix (Fin m) (Fin m) ℚ :=
  G.det⁻¹ • G.adjugate

/-- The function `linear_regression_closed_form` (called `solve_closed_form`
in the specification): `β = (AᵗA)⁻¹ Aᵗ y` on the augmented matrix `A`,
failing (`LinAlgError`, the spec's NumericalSingularity) when `AᵗA` is
singular. -/
def solve_closed_form {n c : ℕ} (X : Matrix (Fin n) (Fin c) ℚ)
    (y : Fin n → ℚ) : Option (Fin (c + 1) → ℚ) :=
  let A := augment X
  let G := Aᵀ * A
  if G.det = 0 then none
  else some ((matInv G * Aᵀ).mulVec y)

/-!
## Concrete inputs used by witnesses and counterexamples
-/

/-- Spec's singular scenario: a Design Matrix with two identical feature
columns (perfect collinearity). -/
def Xcollinear : Matrix (Fin 4) (Fin 2) ℚ := !![0, 0; 1, 1; 2, 2; 3, 3]

/-- An arbitrary matching Target Vector for the singular scenario. -/
def ycollinear : Fin 4 → ℚ := ![5, 7, 9, 11]

/-- Spec's exact-line scenario: Design Matrix `[[0],[1],[2],[3]]`. -/
def Xline : Matrix (Fin 4) (Fin 1) ℚ := !![0; 1; 2; 3]

/-- Spec's exact-line scenario: Target Vector `[5,7,9,11] = 2·x + 5`. -/
def yline : Fin 4 → ℚ := ![5, 7, 9, 11]

/-!
## Helper lemmas
-/

/-- The executable adjugate-based inverse agrees with Mathlib's matrix
inverse. -/
theorem matInv_eq_inv {m : ℕ} (G : Matrix (Fin m) (Fin m) ℚ) :
    matInv G = G⁻¹ := by
  rw [matInv, Matrix.inv_def, Ring.inverse_eq_inv]

/-- When a Design Matrix has two identical feature columns, rows 1 and 2
of the normal-equations matrix `AᵗA` of the augmented matrix coincide. -/
theorem gram_rows_eq_of_collinear {n : ℕ} (X : Matrix (Fin n) (Fin 2) ℚ)
    (h : ∀ i, X i 0 = X i 1) :
    ((augment X)ᵀ * augment X) 1 = ((augment X)ᵀ * augment X) 2 := by
  funext c
  simp only [Matrix.mul_apply, Matrix.transpose_apply, augment, Matrix.of_apply,
    Matrix.cons_val_one, Matrix.cons_val_two, Matrix.head_cons]
  refine Finset.sum_congr rfl fun i _ => ?_
  have h1 : Matrix.vecHead (X i) = X i 0 := rfl
  have h2 : Matrix.vecHead (Matrix.vecTail (X i)) = X i 1 := rfl
  rw [h1, h2, h i]

/-- Lemma: `matVec` succeeds on rectangular input of matching width. -/
theorem matVec_valid {A : List (List ℚ)} {v : List ℚ}
    (h : ∀ r ∈ A, r.length = v.length) :
    matVec A v = some (predict A v) := by
  unfold matVec predict
  rw [if_pos]
  simpa [List.all_eq_true] using h

theorem predict_length (A : List (List ℚ)) (v : List ℚ) :
    (predict A v).length = A.length := by
  simp [predict]

theorem residual_length {X_b : List (List ℚ)} {y : List ℚ} (beta : List ℚ)
    (hy : y.length = X_b.length) :
    (residual X_b y beta).length = X_b.length := by
  simp [residual, predict, hy]

theorem gradOf_length (X_b : List (List ℚ)) (y beta : List ℚ) :
    (gradOf X_b y beta).length = X_b.headI.length := by
  simp [gradOf]

/-- On well-shaped input the loop body never raises and computes exactly
the update `β − lr·g` together with the loss of the pre-update `β`. -/
theorem gdStep_valid {X_b : List (List ℚ)} {y beta : List ℚ} (lr : ℚ)
    (hrect : ∀ r ∈ X_b, r.length = beta.length)
    (hw : X_b.headI.length = beta.length)
    (hy : y.length = X_b.length) :
    gdStep X_b y lr beta = some (stepBeta X_b y lr beta, lossOf X_b y beta) := by
  have hmv := matVec_valid hrect
  have hsub : subVec y (predict X_b beta) = some (residual X_b y beta) := by
    unfold subVec residual
    rw [if_pos (by rw [predict_length, hy])]
  have hTv : matTvec X_b (residual X_b y beta) =
      some ((List.range X_b.headI.length).map
        (fun j => (List.zipWith (fun r x => r.getD j 0 * x) X_b
          (residual X_b y beta)).sum)) := by
    unfold matTvec
    rw [if_pos (residual_length beta hy)]
  have hgrad : ((List.range X_b.headI.length).map
        (fun j => (List.zipWith (fun r x => r.getD j 0 * x) X_b
          (residual X_b y beta)).sum)).map
      (fun v => -v / (X_b.length : ℚ)) = gradOf X_b y beta := by
    simp [gradOf, List.map_map]
  have hupd : subVecI beta ((gradOf X_b y beta).map (fun v => lr * v)) =
      some (stepBeta X_b y lr beta) := by
    unfold subVecI stepBeta
    rw [if_pos (by simp [gradOf_length, hw])]
  simp only [gdStep, hmv, hsub, hTv, Option.some_bind]
  rw [hgrad, hupd]
  rfl

theorem stepBeta_length {X_b : List (List ℚ)} {y beta : List ℚ} (lr : ℚ)
    (hw : X_b.headI.length = beta.length) :
    (stepBeta X_b y lr beta).length = beta.length := by
  simp [stepBeta, gradOf_length, hw]

/-- Full characterization of the loop on well-shaped input: it performs
exactly `k` uninterrupted iterations, returning the `k`-fold iterate of
the update and appending, per iteration `i` (counting from 0), the pair
of the post-update vector (iterate `i+1`) and the loss of the pre-update
vector (iterate `i`). -/
theorem gdLoop_valid {X_b : List (List ℚ)} {y : List ℚ} (lr : ℚ) {w : ℕ}
    (hrect : ∀ r ∈ X_b, r.length = w)
    (hw : X_b.headI.length = w)
    (hy : y.length = X_b.length)
    (k : ℕ) (beta : List ℚ) (hist : List (List ℚ × ℚ)) (hb : beta.length = w) :
    gdLoop X_b y lr k beta hist =
      some ((stepBeta X_b y lr)^[k] beta,
        hist ++ (List.range k).map
          (fun i => ((stepBeta X_b y lr)^[i + 1] beta,
                     lossOf X_b y ((stepBeta X_b y lr)^[i] beta)))) := by
  induction k generalizing beta hist with
  | zero => simp [gdLoop]
  | succ k ih =>
    have hrect' : ∀ r ∈ X_b, r.length = beta.length := by rw [hb]; exact hrect
    have hw' : X_b.headI.length = beta.length := by rw [hb]; exact hw
    have hlen : (stepBeta X_b y lr beta).length = w := by
      rw [stepBeta_length lr hw', hb]
    rw [gdLoop, gdStep_valid lr hrect' hw' hy, Option.some_bind]
    rw [ih (stepBeta X_b y lr beta)
      (hist ++ [(stepBeta X_b y lr beta, lossOf X_b y beta)]) hlen]
    have h2 : (List.range (k + 1)).map
        (fun i => ((stepBeta X_b y lr)^[i + 1] beta,
                   lossOf X_b y ((stepBeta X_b y lr)^[i] beta)))
        = (stepBeta X_b y lr beta, lossOf X_b y beta) ::
            (List.range k).map
              (fun i => ((stepBeta X_b y lr)^[i + 1] (stepBeta X_b y lr beta),
                 lossOf X_b y ((stepBeta X_b y lr)^[i] (stepBeta X_b y lr beta)))) := by
      rw [List.range_succ_eq_map, List.map_cons, List.map_map]
      refine congrArg₂ List.cons (by simp) ?_
      congr 1
    rw [h2]
    simp [Function.iterate_succ_apply]

/-- Characterization of `gradient_descent` on a valid single-feature input (every row of
length 1, at least one row, matching Target Vector) with a non-negative
iteration count `k`: the run succeeds, performs exactly `k` iterations,
and the Loss History records per iteration the post-update coefficient
vector paired with the loss of the pre-update vector. -/
theorem gradient_descent_valid (X : List (List ℚ)) (y : List ℚ) (lr : ℚ)
    (k : ℕ)
    (hrect : ∀ r ∈ X, r.length = 1) (hne : X ≠ []) (hy : y.length = X.length) :
    gradient_descent X y lr (k : ℤ) =
      some ((stepBeta (augRows X) y lr)^[k] (List.replicate 2 0),
        (List.range k).map
          (fun i => ((stepBeta (augRows X) y lr)^[i + 1] (List.replicate 2 0),
                     lossOf (augRows X) y
                       ((stepBeta (augRows X) y lr)^[i] (List.replicate 2 0))))) := by
  have h1 : ∀ r ∈ augRows X, r.length = 2 := by
    intro r hr
    simp only [augRows, List.mem_map] at hr
    obtain ⟨s, hs, rfl⟩ := hr
    simp [hrect s hs]
  have h2 : (augRows X).headI.length = 2 := by
    cases X with
    | nil => exact absurd rfl hne
    | cons r t => simp [augRows, hrect r (by simp)]
  have h3 : y.length = (augRows X).length := by simp [augRows, hy]
  have h := gdLoop_valid lr h1 h2 h3 k (List.replicate 2 0) [] (by simp)
  simpa [gradient_descent] using h

/-- A successful in-place subtraction keeps the length of its first
argument (numpy cannot grow an array in place). -/
theorem subVecI_some_length {a b c : List ℚ} (h : subVecI a b = some c) :
    c.length = a.length := by
  unfold subVecI at h
  split_ifs at h with h1 h2
  · injection h with h
    subst h
    simp [h1]
  · injection h with h
    subst h
    simp

/-- A successful loop-body iteration preserves the coefficient-vector
length. -/
theorem gdStep_some_length {X_b : List (List ℚ)} {y : List ℚ} {lr : ℚ}
    {beta : List ℚ} {r : List ℚ × ℚ}
    (h : gdStep X_b y lr beta = some r) : r.1.length = beta.length := by
  simp only [gdStep, Option.bind_eq_some, Option.map_eq_some'] at h
  obtain ⟨y_pred, hmv, error, hsv, ge, hTv, beta', hup, rfl⟩ := h
  exact subVecI_some_length hup

/-- A successful loop run preserves the coefficient-vector length. -/
theorem gdLoop_some_length {X_b : List (List ℚ)} {y : List ℚ} {lr : ℚ} :
    ∀ (k : ℕ) (beta : List ℚ) (hist : List (List ℚ × ℚ))
      (res : List ℚ × List (List ℚ × ℚ)),
      gdLoop X_b y lr k beta hist = some res → res.1.length = beta.length := by
  intro k
  induction k with
  | zero =>
    intro beta hist res h
    unfold gdLoop at h
    injection h with h
    subst h
    rfl
  | succ k ih =>
    intro beta hist res h
    rw [gdLoop, Option.bind_eq_some] at h
    obtain ⟨bL, hst, hrest⟩ := h
    rw [ih _ _ _ hrest]
    exact gdStep_some_length hst

/-- When the Target Vector length matches neither the row count nor the
broadcastable length 1, the loop body raises on the residual (or, when
the row count is 1, on the transposed product that follows). -/
theorem gdStep_mismatch {X_b : List (List ℚ)} {y beta : List ℚ} {lr : ℚ}
    (h1 : y.length ≠ X_b.length) (h2 : y.length ≠ 1) :
    gdStep X_b y lr beta = none := by
  unfold gdStep
  cases hmv : matVec X_b beta with
  | none => rfl
  | some y_pred =>
    have hyp : y_pred.length = X_b.length := by
      unfold matVec at hmv
      split_ifs at hmv
      injection hmv with hmv
      subst hmv
      simp
    rw [Option.some_bind]
    unfold subVec
    rw [if_neg (by rw [hyp]; exact h1)]
    by_cases hb1 : y_pred.length = 1
    · rw [if_pos hb1, Option.some_bind]
      unfold matTvec
      rw [if_neg (by simpa using h1)]
      rfl
    · rw [if_neg hb1, if_neg h2]
      rfl

/-!
## Claim C2
-/

/-- C2: for every Design Matrix whose augmented normal-equations matrix
`AᵗA` is not invertible, `solve_closed_form` fails with the
NumericalSingularity error (`none`, modelling `np.linalg.inv` raising
`LinAlgError`) and never silently returns a coefficient vector. -/
theorem C2_singular_fails {n c : ℕ} (X : Matrix (Fin n) (Fin c) ℚ)
    (y : Fin n → ℚ) (h : ¬ IsUnit ((augment X)ᵀ * augment X).det) :
    solve_closed_form X y = none := by
  have hz : ((augment X)ᵀ * augment X).det = 0 := by
    by_contra hne
    exact h (isUnit_iff_ne_zero.mpr hne)
  simp [solve_closed_form, hz]

/-- Witness for C2: the spec's collinear scenario (two identical feature
columns) makes `AᵗA` singular, and `solve_closed_form` indeed fails. -/
theorem C2_singular_fails_witness :
    solve_closed_form Xcollinear ycollinear = none := by
  refine C2_singular_fails Xcollinear ycollinear ?_
  have hrows := gram_rows_eq_of_collinear Xcollinear (by decide)
  have hdet : ((augment Xcollinear)ᵀ * augment Xcollinear).det = 0 :=
    Matrix.det_zero_of_row_eq (by decide : (1 : Fin 3) ≠ 2) hrows
  rw [hdet]
  exact not_isUnit_zero

/-!
## Claim C5
-/

/-- C5: for every Design Matrix whose augmented normal-equations matrix
`AᵗA` is invertible (over `ℚ` this is exactly linear independence of the
augmented columns; it also forces rows ≥ columns + 1 ≥ 1) and whose
Target Vector is exactly `A · β_true` (no noise), `solve_closed_form`
returns `β_true`: the returned value `(AᵗA)⁻¹ Aᵗ y` collapses to
`β_true`. -/
theorem C5_exact_recovery {n c : ℕ} (X : Matrix (Fin n) (Fin c) ℚ)
    (y : Fin n → ℚ) (bt : Fin (c + 1) → ℚ)
    (hdet : IsUnit ((augment X)ᵀ * augment X).det)
    (hy : y = (augment X).mulVec bt) :
    solve_closed_form X y = some bt := by
  have hz : ((augment X)ᵀ * augment X).det ≠ 0 := hdet.ne_zero
  simp only [solve_closed_form, if_neg hz]
  subst hy
  rw [matInv_eq_inv, Matrix.mulVec_mulVec, Matrix.mul_assoc,
    Matrix.nonsing_inv_mul _ hdet, Matrix.one_mulVec]

/-- Witness for C5: the spec's concrete scenario — Design Matrix
`[[0],[1],[2],[3]]`, Target Vector `[5,7,9,11]` (the exact line
`y = 2x + 5`) — yields coefficients `[5, 2]` (intercept, slope). -/
theorem C5_exact_recovery_witness :
    solve_closed_form Xline yline = some ![5, 2] := by
  refine C5_exact_recovery Xline yline ![5, 2] ?_ ?_
  · have hG : (augment Xline)ᵀ * augment Xline = !![4, 6; 6, 14] := by
      ext i j
      fin_cases i <;> fin_cases j <;>
        norm_num [augment, Xline, Matrix.mul_apply, Fin.sum_univ_four,
          Matrix.vecHead, Matrix.vecTail]
    rw [hG, Matrix.det_fin_two_of]
    norm_num
  · funext i
    fin_cases i <;>
      norm_num [augment, Xline, yline, Matrix.mulVec, Matrix.dotProduct,
        Fin.sum_univ_succ, Matrix.vecHead, Matrix.vecTail]

/-!
## Claim C1
-/

/-- Counterexample to C1 as stated: on a Design Matrix with c = 2
feature columns (and a matching Target Vector) the claim requires a
returned Coefficient Vector of length c + 1 = 3; instead the call fails
outright, because `beta = np.zeros((2,))` is hard-coded to length 2 and
`X_b @ beta` raises on the 2-row × 3-column augmented matrix. -/
theorem C1_counterexample :
    gradient_descent [[0, 0], [1, 1]] [1, 2] 1 1 = none := by decide

/-- C1 amended: the Coefficient Vector is initialized to the hard-coded
all-zero vector of length 2 — not length c + 1 — and every successful
call returns a Coefficient Vector of length 2, which equals c + 1 only
for c = 1; for c ≠ 1 a positive iteration count makes the call fail. -/
theorem C1_success_returns_length_two (X : List (List ℚ)) (y : List ℚ)
    (lr : ℚ) (epochs : ℤ) (betaF : List ℚ) (hist : List (List ℚ × ℚ))
    (h : gradient_descent X y lr epochs = some (betaF, hist)) :
    betaF.length = 2 := by
  have := gdLoop_some_length epochs.toNat (List.replicate 2 0) [] (betaF, hist) h
  simpa using this

/-- Witness for C1 (amended): a concrete successful call whose returned
vector has length 2. -/
theorem C1_success_returns_length_two_witness :
    (List.replicate 2 (0 : ℚ)).length = 2 :=
  C1_success_returns_length_two [[0]] [0] 1 0 (List.replicate 2 0) [] rfl

/-!
## Claim C3
-/

/-- Counterexample to C3: a Target Vector of length 1 against a 3-row
Design Matrix is a shape mismatch, yet `run_gradient_descent` raises no
InputShapeMismatch — numpy broadcasting stretches the length-1 vector
and the call succeeds, returning coefficients and a loss history. -/
theorem C3_counterexample :
    ([(5 : ℚ)]).length ≠ ([[(0 : ℚ)], [1], [2]]).length ∧
      gradient_descent [[0], [1], [2]] [5] 1 1 =
        some ([5, 5], [([5, 5], 25 / 2)]) := by
  constructor
  · decide
  · norm_num [gradient_descent, augRows, gdLoop, gdStep, matVec, matTvec,
      subVec, subVecI, dot, List.range_succ, List.replicate]

/-- C3 amended: there is no explicit shape validation in either routine;
a Target Vector length that matches neither the row count nor the
broadcastable length 1 makes `run_gradient_descent` (with at least one
iteration) fail only when the mismatched numpy operation itself raises,
mid-iteration, and a length-1 Target Vector is silently broadcast
instead of being rejected. -/
theorem C3_mismatch_fails (X : List (List ℚ)) (y : List ℚ) (lr : ℚ)
    (epochs : ℤ) (he : 1 ≤ epochs) (h1 : y.length ≠ X.length)
    (h2 : y.length ≠ 1) :
    gradient_descent X y lr epochs = none := by
  obtain ⟨m, hm⟩ : ∃ m, epochs.toNat = m + 1 := ⟨epochs.toNat - 1, by omega⟩
  have hXb : (augRows X).length = X.length := by simp [augRows]
  unfold gradient_descent
  rw [hm, gdLoop, gdStep_mismatch (by rw [hXb]; exact h1) h2]
  rfl

/-- Witness for C3 (amended): the spec's malformed-input scenario — a
3-row Design Matrix with a 4-entry Target Vector — makes the call
fail. -/
theorem C3_mismatch_fails_witness :
    gradient_descent [[0], [1], [2]] [1, 2, 3, 4] 1 1 = none :=
  C3_mismatch_fails [[0], [1], [2]] [1, 2, 3, 4] 1 1 (by decide) (by decide)
    (by decide)

/-!
## Claim C4
-/

/-- Counterexample to C4: the learning rate 0 is non-positive, yet the
call does not fail with InvalidParameter — it runs the iteration and
returns a result (the coefficients simply never move). -/
theorem C4_counterexample :
    ¬ 0 < (0 : ℚ) ∧
      gradient_descent [[0], [1], [2], [3]] [5, 7, 9, 11] 0 1 =
        some ([0, 0], [([0, 0], 69 / 2)]) := by
  constructor
  · decide
  · norm_num [gradient_descent, augRows, gdLoop, gdStep, matVec, matTvec,
      subVec, subVecI, dot, List.range_succ, List.replicate]

/-- C4 amended: no parameter validation exists; a non-positive learning
rate is used as given (the counterexample shows a full run with lr = 0),
and a negative iteration count is not rejected either — `range(epochs)`
is simply empty, so the call returns the initial zero vector and an
empty Loss History. -/
theorem C4_negative_iterations_return_initial (X : List (List ℚ))
    (y : List ℚ) (lr : ℚ) (epochs : ℤ) (h : epochs < 0) :
    gradient_descent X y lr epochs = some (List.replicate 2 0, []) := by
  unfold gradient_descent
  rw [Int.toNat_of_nonpos h.le]
  rfl

/-- Witness for C4 (amended): iteration count −1 yields the initial
zeros and an empty history instead of an InvalidParameter failure. -/
theorem C4_negative_iterations_return_initial_witness :
    gradient_descent [[1]] [2] 5 (-1) = some (List.replicate 2 0, []) :=
  C4_negative_iterations_return_initial [[1]] [2] 5 (-1) (by decide)

/-!
## Claim C6
-/

/-- Counterexample to C6 as stated: a valid input with c = 2 feature
columns and iteration count 1 should, per the claim, run exactly one
iteration and return a one-entry Loss History; instead the call fails on
the hard-coded length-2 coefficient vector and returns nothing. -/
theorem C6_counterexample :
    gradient_descent [[1, 2], [3, 4], [5, 6]] [1, 2, 3] (1 / 2) 1 = none := by
  decide

/-- C6 amended (restricted to single-feature inputs, the only ones the
code's hard-coded length-2 vector supports): for every valid
single-feature input and non-negative iteration count `k`, the run
succeeds, performs exactly `k` iterations with no early stopping — each
computing `ŷ = Aβ`, `e = y − ŷ`, `g = −Aᵗe/n`, `β ← β − lr·g`,
`L = 0.5·mean(e²)` (see `stepBeta` and `lossOf`) — and the returned Loss
History has exactly one `(β copy, L)` entry per iteration, in
chronological order. -/
theorem C6_single_feature_iteration_structure (X : List (List ℚ))
    (y : List ℚ) (lr : ℚ) (k : ℕ)
    (hrect : ∀ r ∈ X, r.length = 1) (hne : X ≠ [])
    (hy : y.length = X.length) :
    gradient_descent X y lr (k : ℤ) =
      some ((stepBeta (augRows X) y lr)^[k] (List.replicate 2 0),
        (List.range k).map
          (fun i => ((stepBeta (augRows X) y lr)^[i + 1] (List.replicate 2 0),
                     lossOf (augRows X) y
                       ((stepBeta (augRows X) y lr)^[i] (List.replicate 2 0)))))
      ∧ ((List.range k).map
          (fun i => ((stepBeta (augRows X) y lr)^[i + 1] (List.replicate 2 0),
                     lossOf (augRows X) y
                       ((stepBeta (augRows X) y lr)^[i]
                         (List.replicate 2 0))))).length = k := by
  refine ⟨gradient_descent_valid X y lr k hrect hne hy, by simp⟩

/-- Witness for C6 (amended): the characterization holds on the spec's
exact-line data with one iteration. -/
theorem C6_single_feature_iteration_structure_witness :
    gradient_descent [[0], [1], [2], [3]] [5, 7, 9, 11] (1 / 20) ((1 : ℕ) : ℤ) =
      some ((stepBeta (augRows [[0], [1], [2], [3]]) [5, 7, 9, 11] (1 / 20))^[1]
          (List.replicate 2 0),
        (List.range 1).map
          (fun i => ((stepBeta (augRows [[0], [1], [2], [3]]) [5, 7, 9, 11]
              (1 / 20))^[i + 1] (List.replicate 2 0),
            lossOf (augRows [[0], [1], [2], [3]]) [5, 7, 9, 11]
              ((stepBeta (augRows [[0], [1], [2], [3]]) [5, 7, 9, 11]
                (1 / 20))^[i] (List.replicate 2 0))))) :=
  (C6_single_feature_iteration_structure [[0], [1], [2], [3]] [5, 7, 9, 11]
    (1 / 20) 1 (by decide) (by decide) (by decide)).1

/-!
## Claim C7
-/

/-- Counterexample to C7 as stated: on a valid Design Matrix with c = 2
feature columns, iteration count 0 returns the hard-coded zero vector of
length 2, not the all-zero Coefficient Vector of length c + 1 = 3 that
the data model prescribes for this input. -/
theorem C7_counterexample :
    gradient_descent [[1, 2]] [3] 1 0 = some (List.replicate 2 0, []) ∧
      (List.replicate 2 (0 : ℚ)).length ≠ 2 + 1 := by
  exact ⟨rfl, by decide⟩

/-- C7 amended: with iteration count 0 the call returns the hard-coded
all-zero vector of length 2 (the all-zero Coefficient Vector exactly
when c = 1) and an empty Loss History, for every Design Matrix, Target
Vector and learning rate. -/
theorem C7_zero_iterations_zero_vector (X : List (List ℚ)) (y : List ℚ)
    (lr : ℚ) :
    gradient_descent X y lr 0 = some (List.replicate 2 0, []) := rfl

/-!
## Claim C9
-/

/-- C9: with a non-positive iteration count the loop body — and with it
every validation-relevant operation — is never executed: for every
Design Matrix and Target Vector, matching or not, and every learning
rate, the call returns the zero vector and an empty Loss History without
failing. -/
theorem C9_nonpositive_iterations_no_validation (X : List (List ℚ))
    (y : List ℚ) (lr : ℚ) (epochs : ℤ) (h : epochs ≤ 0) :
    gradient_descent X y lr epochs = some (List.replicate 2 0, []) := by
  unfold gradient_descent
  rw [Int.toNat_of_nonpos h]
  rfl

/-- Witness for C9: a 3-row Design Matrix with a 4-entry Target Vector
and a negative learning rate still returns the zero vector and an empty
history when the iteration count is −3. -/
theorem C9_nonpositive_iterations_no_validation_witness :
    gradient_descent [[1], [2], [3]] [1, 2, 3, 4] (-7) (-3) =
      some (List.replicate 2 0, []) :=
  C9_nonpositive_iterations_no_validation [[1], [2], [3]] [1, 2, 3, 4] (-7)
    (-3) (by decide)

/-!
## Claim C10
-/

/-- C10: in every Loss History produced on a valid (single-feature)
input, entry `i` pairs the post-update coefficient snapshot (the
`(i+1)`-st iterate of the update) with the loss computed from the
residual of the pre-update vector (the `i`-th iterate); in particular
the first entry's loss is the loss of the all-zero initial vector, and
the recorded losses are those of iterates `0 … k−1`, so no entry records
a loss computed from the final returned vector (the `k`-th iterate). -/
theorem C10_history_loss_pre_update (X : List (List ℚ)) (y : List ℚ)
    (lr : ℚ) (k : ℕ)
    (hrect : ∀ r ∈ X, r.length = 1) (hne : X ≠ [])
    (hy : y.length = X.length)
    (betaF : List ℚ) (hist : List (List ℚ × ℚ))
    (hrun : gradient_descent X y lr (k : ℤ) = some (betaF, hist)) :
    hist.length = k ∧
      betaF = (stepBeta (augRows X) y lr)^[k] (List.replicate 2 0) ∧
      ∀ i (hi : i < hist.length),
        hist.get ⟨i, hi⟩ =
          ((stepBeta (augRows X) y lr)^[i + 1] (List.replicate 2 0),
           lossOf (augRows X) y
             ((stepBeta (augRows X) y lr)^[i] (List.replicate 2 0))) := by
  rw [gradient_descent_valid X y lr k hrect hne hy] at hrun
  injection hrun with hp
  cases hp
  refine ⟨by simp, rfl, ?_⟩
  intro i hi
  rw [List.get_eq_getElem]
  simp [List.getElem_map, List.getElem_range]

/-- Witness for C10: on the spec's exact-line data with two iterations,
the returned final vector is the second iterate of the update (whose
loss, in particular, is recorded nowhere in the history). -/
theorem C10_history_loss_pre_update_witness :
    ([1161 / 1600, 2069 / 1600] : List ℚ) =
      (stepBeta (augRows [[0], [1], [2], [3]]) [5, 7, 9, 11] (1 / 20))^[2]
        (List.replicate 2 0) :=
  (C10_history_loss_pre_update [[0], [1], [2], [3]] [5, 7, 9, 11] (1 / 20) 2
    (by decide) (by decide) (by decide)
    [1161 / 1600, 2069 / 1600]
    [([2 / 5, 29 / 40], 69 / 2), ([1161 / 1600, 2069 / 1600], 142223 / 6400)]
    (by norm_num [gradient_descent, augRows, gdLoop, gdStep, matVec, matTvec,
      subVec, subVecI, dot, List.range_succ, List.replicate])).2.1

end MLCore
